import Mathlib

/- Shallow embedding of the zone-block record lifecycle engine of the
cert-manager GitLab webhook (src/main.go and src/record.go).

Go regular expressions are modelled on the fragment the program actually
exercises: patterns built from literal characters, the dot metacharacter
and the escape backslash-n.  A pattern outside this fragment is mapped to
a distinct modelling error, and every theorem below either works on
concrete strings inside the fragment or carries an explicit hypothesis
keeping it there. -/

namespace CertWebhook

/-- Error values of the Go code (src/main.go and src/record.go), plus one
marker for regex patterns outside the modelled fragment. -/
inductive GoErr where
  | txtRecordAlreadyExists
  | txtRecordsDoNotExist
  | txtRecordDoesNotExist
  | acmeBotContentNotFound
  | serialNumberNotFound
  | domainRequired
  | keyRequired
  | invalidDomainFormat
  | atoiFailure
  | repositoryApiFailure
  | outsideModelledFragment
  deriving DecidableEq, Repr

/-- Single token of the modelled regex fragment: a literal character or
the dot metacharacter, which in Go RE2 matches any character except a
newline. -/
inductive RTok where
  | lit (c : Char)
  | dot
  deriving DecidableEq, Repr

/-- Characters that are special in Go RE2 syntax apart from the dot.  A
pattern containing one of them bare is outside the modelled fragment,
except that the two-character escape backslash-n compiles to a literal
newline. -/
def rxSpecial : List Char :=
  ['\\', '+', '*', '?', '(', ')', '|', '[', ']', '\x7b', '\x7d', '^', '$']

/-- Worker of compileLite; the flag records a pending backslash. -/
def compileLiteGo (esc : Bool) : List Char → Option (List RTok)
  | [] => if esc then none else some []
  | c :: r =>
    if esc then
      if c = 'n' then (compileLiteGo false r).map (fun p => RTok.lit '\n' :: p) else none
    else if c = '\\' then compileLiteGo true r
    else if c ∈ rxSpecial then none
    else (compileLiteGo false r).map (fun p => (if c = '.' then RTok.dot else RTok.lit c) :: p)

/-- Compiles a Go regex string that belongs to the modelled fragment:
literal characters, the dot, and the escape backslash-n.  Returns none
outside the fragment. -/
def compileLite (s : List Char) : Option (List RTok) := compileLiteGo false s

/-- All-literal pattern for a character list. -/
def litPat (s : List Char) : List RTok := s.map RTok.lit

/-- Does the fixed-length token pattern match at the head of the list. -/
def matchesAt : List RTok → List Char → Bool
  | [], _ => true
  | _ :: _, [] => false
  | RTok.lit c :: p, d :: s => c == d && matchesAt p s
  | RTok.dot :: p, d :: s => d != '\n' && matchesAt p s

/-- ASCII name character of a Go replacement-template reference (the Go
code accepts any unicode letter; only ASCII occurs here). -/
def isNameChar (c : Char) : Bool :=
  (decide ('a' ≤ c) && decide (c ≤ 'z')) || (decide ('A' ≤ c) && decide (c ≤ 'Z')) ||
    (decide ('0' ≤ c) && decide (c ≤ '9')) || c == '_'

/-- Parses the reference that follows a dollar in a Go replacement
template, mirroring the extract helper used by Go regexp Expand: either a
brace-delimited name or the longest run of name characters.  Returns the
name and the rest, or none when the dollar is literal. -/
def extractName (r : List Char) : Option (List Char × List Char) :=
  match r with
  | '\x7b' :: r2 =>
    match r2.takeWhile isNameChar, r2.dropWhile isNameChar with
    | nm, '\x7d' :: r3 => if nm.isEmpty then none else some (nm, r3)
    | _, _ => none
  | _ =>
    match r.takeWhile isNameChar, r.dropWhile isNameChar with
    | [], _ => none
    | nm, r2 => some (nm, r2)

/-- Decimal value of a digit character. -/
def digitVal (c : Char) : Nat := c.toNat - 48

/-- Decimal value of a digit run. -/
def natOfDigits (l : List Char) : Nat := l.foldl (fun a c => a * 10 + digitVal c) 0

/-- Decides whether a character is a decimal digit. -/
def isDigitCh (c : Char) : Bool := decide ('0' ≤ c) && decide (c ≤ '9')

/-- Numeric index denoted by a reference name, when the name is a digit
run. -/
def nameIndex (nm : List Char) : Option Nat :=
  if !nm.isEmpty && nm.all isDigitCh then some (natOfDigits nm) else none

/-- Expands dollar references of a Go replacement template for a pattern
with no capture groups: index 0 denotes the whole match, every other
reference expands to the empty string, and a dollar that does not start a
valid reference stays literal.  Fuelled by the template length. -/
def expandGo (whole : List Char) : Nat → List Char → List Char
  | _, [] => []
  | 0, r => r
  | fuel + 1, c :: r =>
    if c = '$' then
      match extractName r with
      | some (nm, r2) =>
        (match nameIndex nm with
         | some 0 => whole
         | _ => []) ++ expandGo whole fuel r2
      | none => c :: expandGo whole fuel r
    else c :: expandGo whole fuel r

/-- Expansion of a replacement template against one matched slice. -/
def expandRepl (whole repl : List Char) : List Char := expandGo whole repl.length repl

/-- Core of Go ReplaceAllString for a fixed-length pattern of the modelled
fragment: replaces every leftmost non-overlapping match, expanding dollar
references of the replacement against each matched slice.  Fuelled by the
subject length. -/
def replaceAllGo (p : List RTok) (r : List Char) : Nat → List Char → List Char
  | _, [] => []
  | 0, s => s
  | fuel + 1, c :: s =>
    if matchesAt p (c :: s) then
      expandRepl ((c :: s).take p.length) r ++ replaceAllGo p r fuel (s.drop (p.length - 1))
    else
      c :: replaceAllGo p r fuel s

/-- Go ReplaceAllString on the modelled fragment. -/
def replaceAll (p : List RTok) (r s : List Char) : List Char :=
  replaceAllGo p r s.length s

/-- addTxtRecord of src/main.go: compiles the closing marker
"; PFX-ACME-BOT-END" as a regex and replaces every match of it with the
record line, a newline and the closing marker. -/
def addTxtRecord (content recordStr pfx : String) : Except GoErr String :=
  match compileLite ("; " ++ pfx ++ "-ACME-BOT-END").data with
  | none => Except.error GoErr.outsideModelledFragment
  | some p =>
    Except.ok
      (String.mk (replaceAll p (recordStr ++ "\n; " ++ pfx ++ "-ACME-BOT-END").data content.data))

/-- removeTxtRecord of src/main.go: compiles the record line followed by
the escape backslash-n as a regex and replaces every match of it with the
empty string. -/
def removeTxtRecord (content recordStr : String) : Except GoErr String :=
  match compileLite (recordStr ++ "\\n").data with
  | none => Except.error GoErr.outsideModelledFragment
  | some p => Except.ok (String.mk (replaceAll p [] content.data))

/-- Index of the leftmost match of a pattern in a list. -/
def findIdx (p : List RTok) : List Char → Option Nat
  | [] => if matchesAt p [] then some 0 else none
  | c :: s => if matchesAt p (c :: s) then some 0 else (findIdx p s).map (· + 1)

/-- Search loop of extractAcmeBotContent: the Go pattern is the opening
marker line, a lazy any-character group, then the closing marker, so the
leftmost overall match starts at the leftmost position where the opening
marker line matches and has a closing marker somewhere after it, and the
lazy group takes the characters up to the nearest such closing marker.
When the opening marker line matches but no closing marker follows, no
shorter suffix can contain one either, so the whole search fails. -/
def extractLoop (op cp : List RTok) : List Char → Option (List Char)
  | [] => none
  | c :: s =>
    if matchesAt op (c :: s) then
      match findIdx cp ((c :: s).drop op.length) with
      | some j => some (((c :: s).drop op.length).take j)
      | none => none
    else extractLoop op cp s

/-- extractAcmeBotContent of src/main.go, with the configured comment
prefix passed as a parameter. -/
def extractAcmeBotContent (pfx content : String) : Except GoErr String :=
  match compileLite ("; " ++ pfx ++ "-ACME-BOT\\n").data,
      compileLite ("; " ++ pfx ++ "-ACME-BOT-END").data with
  | some op, some cp =>
    match extractLoop op cp content.data with
    | some mid => Except.ok (String.mk mid)
    | none => Except.error GoErr.acmeBotContentNotFound
  | _, _ => Except.error GoErr.outsideModelledFragment

/-- Decides whether a character matches backslash-s of Go RE2, which is
the class of tab, newline, form feed, carriage return and space. -/
def isSpaceCh (c : Char) : Bool :=
  c == ' ' || c == '\t' || c == '\n' || c == '\x0c' || c == '\r'

/-- Literal tail of the serial number pattern, the text "serial number"
as an explicit character list. -/
def serialLit : List Char :=
  ['s', 'e', 'r', 'i', 'a', 'l', ' ', 'n', 'u', 'm', 'b', 'e', 'r']

/-- Matches the part of the serial pattern after the semicolon, an
optional whitespace character followed by the literal text
"serial number", returning the number of characters consumed. -/
def matchSemiTail (r : List Char) : Option Nat :=
  if serialLit.isPrefixOf r then some serialLit.length
  else
    match r with
    | c :: r2 =>
      if isSpaceCh c && serialLit.isPrefixOf r2 then some (1 + serialLit.length) else none
    | [] => none

/-- Matches the serial number pattern of src/main.go, a digit run, an
optional whitespace character, a semicolon, an optional whitespace
character and the text "serial number", at the head of the list.  The
digit run and the whitespace options are deterministic because the digit,
whitespace and semicolon classes are pairwise disjoint.  Returns the total
match length and the captured digit run. -/
def matchSerialAt (s : List Char) : Option (Nat × List Char) :=
  let digs := s.takeWhile isDigitCh
  match s.dropWhile isDigitCh with
  | [] => none
  | c :: r2 =>
    if c = ';' then (matchSemiTail r2).map (fun k => (digs.length + 1 + k, digs))
    else if isSpaceCh c then
      match r2 with
      | [] => none
      | d :: r3 =>
        if d = ';' then (matchSemiTail r3).map (fun k => (digs.length + 2 + k, digs))
        else none
    else none

/-- Captured digit run of the leftmost serial pattern match. -/
def findSerialDigits : List Char → Option (List Char)
  | [] => none
  | c :: s =>
    match matchSerialAt (c :: s) with
    | some (_, digs) => some digs
    | none => findSerialDigits s

/-- Go ReplaceAllString for the serial number pattern.  The replacement
strings the code passes here are built from the formatted date and digits
and contain no dollar character, so template expansion is the identity
and is not modelled. -/
def replaceAllSerialGo (r : List Char) : Nat → List Char → List Char
  | _, [] => []
  | 0, s => s
  | fuel + 1, c :: s =>
    match matchSerialAt (c :: s) with
    | some (len, _) => r ++ replaceAllSerialGo r fuel (s.drop (len - 1))
    | none => c :: replaceAllSerialGo r fuel s

/-- Replaces every serial pattern match. -/
def replaceAllSerial (r s : List Char) : List Char := replaceAllSerialGo r s.length s

/-- strconv.Atoi restricted to the inputs that occur here, a run of
decimal digits; empty or non-digit input is an error.  Signs and overflow
are not modelled since only captured digit runs reach this call. -/
def goAtoi (s : List Char) : Except GoErr Nat :=
  if !s.isEmpty && s.all isDigitCh then Except.ok (natOfDigits s)
  else Except.error GoErr.atoiFailure

/-- Sprintf %02d for the counter values that occur here. -/
def fmt02 (n : Nat) : String := if n < 10 then "0" ++ toString n else toString n

/-- increaseSerialNumber of src/main.go, with the formatted current date
(time.Now in layout 20060102) passed as the parameter currentDate. -/
def increaseSerialNumber (currentDate content : String) : Except GoErr String :=
  match findSerialDigits content.data with
  | none => Except.error GoErr.serialNumberNotFound
  | some digs =>
    if currentDate.data.isPrefixOf digs then
      match goAtoi (digs.drop currentDate.data.length) with
      | Except.error e => Except.error e
      | Except.ok n =>
        let n2 := if n + 1 > 99 then 0 else n + 1
        Except.ok (String.mk
          (replaceAllSerial (currentDate ++ fmt02 n2 ++ " ; serial number").data content.data))
    else
      Except.ok (String.mk
        (replaceAllSerial (currentDate ++ "01 ; serial number").data content.data))

/-- Lowercase letter class of VALID_DOMAIN_REGEX. -/
def isLowerCh (c : Char) : Bool := decide ('a' ≤ c) && decide (c ≤ 'z')

/-- Character class of the first part of a label, underscore or lowercase
letter or digit. -/
def isUndCh (c : Char) : Bool := c == '_' || isLowerCh c || isDigitCh c

/-- Character class of the rest of a label, hyphen or lowercase letter or
digit. -/
def isHypCh (c : Char) : Bool := c == '-' || isLowerCh c || isDigitCh c

/-- Matches one label of VALID_DOMAIN_REGEX, a nonempty run of underscore
class characters followed by hyphen class characters; the greedy split is
complete because the underscore is not in the hyphen class and vice
versa. -/
def isLabelChars (cs : List Char) : Bool :=
  !(cs.takeWhile isUndCh).isEmpty && (cs.dropWhile isUndCh).all isHypCh

/-- Splits a character list at every dot. -/
def splitDots : List Char → List (List Char)
  | [] => [[]]
  | c :: r =>
    if c = '.' then [] :: splitDots r
    else
      match splitDots r with
      | [] => [[c]]
      | h :: t => (c :: h) :: t

/-- Decides VALID_DOMAIN_REGEX of src/record.go, which anchors one or more
dot-terminated labels, a top-level part of two or more lowercase letters
and an optional final dot.  Because no label or top-level character can be
a dot, the regex is equivalent to stripping one optional final dot and
splitting on dots. -/
def validDomain (s : String) : Bool :=
  let cs := if s.data.getLast? == some '.' then s.data.dropLast else s.data
  let parts := splitDots cs
  decide (2 ≤ parts.length) && parts.dropLast.all isLabelChars &&
    decide (2 ≤ (parts.getLast?.getD []).length) && (parts.getLast?.getD []).all isLowerCh

/-- Record of src/record.go. -/
structure Record where
  Domain : String
  Key : String
  deriving DecidableEq, Repr

/-- Validate of src/record.go. -/
def Record.Validate (r : Record) : Except GoErr Unit :=
  if r.Domain = "" then Except.error GoErr.domainRequired
  else if r.Key = "" then Except.error GoErr.keyRequired
  else if validDomain r.Domain then Except.ok ()
  else Except.error GoErr.invalidDomainFormat

/-- GenerateTextRecord of src/record.go. -/
def Record.GenerateTextRecord (r : Record) : Except GoErr String :=
  match r.Validate with
  | Except.error e => Except.error e
  | Except.ok _ => Except.ok (r.Domain ++ "            TXT \"" ++ r.Key ++ "\"")

/-- Scans for the leftmost position where the compiled root pattern
matches a suffix of the list optionally followed by one final dot, and
cuts the list there: Go ReplaceAllString with the anchored pattern made of
the root, an optional dot and the end anchor, and an empty replacement. -/
def stripRootSuffix (p : List RTok) : List Char → List Char
  | [] => []
  | c :: s =>
    if matchesAt p (c :: s) && ((c :: s).drop p.length == [] || (c :: s).drop p.length == ['.'])
    then []
    else c :: stripRootSuffix p s

/-- removeRootDomain of src/record.go; on a regex compilation failure the
Go code logs and returns the domain unchanged. -/
def removeRootDomain (domain rootDomain : String) : String :=
  if rootDomain = "" then domain
  else
    match compileLite rootDomain.data with
    | none => domain
    | some p => String.mk (stripRootSuffix p domain.data)

/-- removeTrailingDot of src/record.go. -/
def removeTrailingDot (domain : String) : String :=
  if domain.data.isEmpty then domain
  else if domain.data.getLast? == some '.' then String.mk domain.data.dropLast
  else domain

/-- NewRecord of src/record.go, with ROOT_DOMAIN passed as a parameter. -/
def NewRecord (domain key rootDomain : String) : Record :=
  { Domain := removeTrailingDot (removeRootDomain domain rootDomain), Key := key }

/-- Outcomes of the GitLab API calls one lifecycle operation performs, one
oracle per call site: branch creation, zone-file read, file update and
the merge request flow. -/
structure GitWorld where
  branchOutcome : Option GoErr
  zoneFile : Except GoErr String
  updateOutcome : Option GoErr
  mergeOutcome : Option GoErr

/-- In-memory txtRecords map of the solver, as an association list with
Go map semantics through mapGet, mapPut and mapDel. -/
abbrev Store := List (String × String)

/-- Lookup in the txtRecords map. -/
def mapGet (st : Store) (k : String) : Option String :=
  (st.find? (fun e => e.fst == k)).map (fun e => e.snd)

/-- Assignment in the txtRecords map. -/
def mapPut (st : Store) (k v : String) : Store :=
  (k, v) :: st.filter (fun e => !(e.fst == k))

/-- Deletion in the txtRecords map. -/
def mapDel (st : Store) (k : String) : Store :=
  st.filter (fun e => !(e.fst == k))

/-- Result of a GitLab API call that returns only success or an error. -/
def outcome (o : Option GoErr) : Except GoErr Unit :=
  match o with
  | some e => Except.error e
  | none => Except.ok ()

/-- Side-effect sequence of Present after the store check, in the order of
src/main.go: create the branch, read the zone file, render the record
line, insert it, advance the serial number, update the file, merge.  Each
failing step returns its error at once, as the Go early returns do. -/
def presentPipeline (w : GitWorld) (pfx rootDomain today : String) (fqdn key : String) :
    Except GoErr Unit :=
  Except.bind (outcome w.branchOutcome) (fun _ =>
  Except.bind w.zoneFile (fun content =>
  Except.bind (NewRecord fqdn key rootDomain).GenerateTextRecord (fun recordStr =>
  Except.bind (addTxtRecord content recordStr pfx) (fun content1 =>
  Except.bind (increaseSerialNumber today content1) (fun _ =>
  Except.bind (outcome w.updateOutcome) (fun _ =>
  outcome w.mergeOutcome))))))

/-- Present of src/main.go on the in-memory record store, with GitLab side
effects replaced by the outcome oracles of a GitWorld and the environment
values (comment prefix, ROOT_DOMAIN, formatted current date) passed as
parameters.  Returns the call result and the store afterwards; the store
gains the record only when every step succeeded. -/
def Present (w : GitWorld) (pfx rootDomain today : String) (st : Store) (fqdn key : String) :
    Except GoErr Unit × Store :=
  match mapGet st fqdn with
  | some _ => (Except.error GoErr.txtRecordAlreadyExists, st)
  | none =>
    match presentPipeline w pfx rootDomain today fqdn key with
    | Except.error e => (Except.error e, st)
    | Except.ok _ => (Except.ok (), mapPut st fqdn key)

/-- Side-effect sequence of CleanUp after the store check, in the order of
src/main.go: create the branch, render the record line, read the zone
file, remove the line, advance the serial number, update the file,
merge. -/
def cleanUpPipeline (w : GitWorld) (rootDomain today : String) (fqdn key : String) :
    Except GoErr Unit :=
  Except.bind (outcome w.branchOutcome) (fun _ =>
  Except.bind (NewRecord fqdn key rootDomain).GenerateTextRecord (fun recordStr =>
  Except.bind w.zoneFile (fun content =>
  Except.bind (removeTxtRecord content recordStr) (fun content1 =>
  Except.bind (increaseSerialNumber today content1) (fun _ =>
  Except.bind (outcome w.updateOutcome) (fun _ =>
  outcome w.mergeOutcome))))))

/-- CleanUp of src/main.go, modelled like Present.  The comment prefix is
not used by the Go CleanUp path. -/
def CleanUp (w : GitWorld) (rootDomain today : String) (st : Store) (fqdn key : String) :
    Except GoErr Unit × Store :=
  match mapGet st fqdn with
  | none => (Except.error GoErr.txtRecordDoesNotExist, st)
  | some _ =>
    match cleanUpPipeline w rootDomain today fqdn key with
    | Except.error e => (Except.error e, st)
    | Except.ok _ => (Except.ok (), mapDel st fqdn)

/-! Infrastructure lemmas about the regex model. -/

/-- Character that compiles to a literal token of itself: not special and
not the dot. -/
def isPlainCh (c : Char) : Bool := decide (c ∉ rxSpecial) && c != '.'

/-- String whose characters all compile to literal tokens. -/
def plainStr (s : String) : Bool := s.data.all isPlainCh

/-- Separator of the serial field in the form the spec presents it, one
space, a semicolon, one space and the literal text. -/
def serialSep : List Char := ' ' :: ';' :: ' ' :: serialLit

/-- Number of entries of the store holding the given FQDN. -/
def countKey (st : Store) (k : String) : Nat :=
  (st.filter (fun e => e.fst == k)).length

/-- Closing marker string of the configured comment prefix. -/
def closeChars (pfx : String) : List Char := ("; " ++ pfx ++ "-ACME-BOT-END").data

/-- Opening marker line of the configured comment prefix, the marker text
followed by the newline the Go pattern requires. -/
def openChars (pfx : String) : List Char := ("; " ++ pfx ++ "-ACME-BOT").data ++ ['\n']

/-- String with no dollar character, so that Go replacement template
expansion is the identity on it. -/
def noDollar (s : String) : Bool := s.data.all (fun c => c != '$')

/-- Literal substring occurrence test, used to state that a record line
does not occur in a text. -/
def occursIn (needle : List Char) : List Char → Bool
  | [] => needle.isEmpty
  | c :: s => needle.isPrefixOf (c :: s) || occursIn needle s

/-- Literal substring occurrence at the string level. -/
def containsSub (needle hay : String) : Bool := occursIn needle.data hay.data

theorem litPat_length (s : List Char) : (litPat s).length = s.length := by
  simp [litPat]

theorem matchesAt_nil (p : List RTok) (hp : p ≠ []) : matchesAt p [] = false := by
  cases p with
  | nil => exact absurd rfl hp
  | cons t p => cases t <;> rfl

theorem matchesAt_litPat (P : List Char) :
    ∀ s : List Char, matchesAt (litPat P) s = P.isPrefixOf s := by
  induction P with
  | nil => intro s; cases s <;> rfl
  | cons c P ih =>
    intro s
    cases s with
    | nil => rfl
    | cons d s =>
      show (c == d && matchesAt (litPat P) s) = (c == d && P.isPrefixOf s)
      rw [ih s]

theorem isPrefixOf_oob (P s : List Char) (j : Nat) (hP : P ≠ []) (hj : s.length ≤ j) :
    P.isPrefixOf (s.drop j) = false := by
  rw [List.drop_eq_nil_of_le hj]
  cases P with
  | nil => exact absurd rfl hP
  | cons c P => rfl

theorem compileLite_plain_cons (c : Char) (r : List Char) (hc : isPlainCh c = true) :
    compileLite (c :: r) = (compileLite r).map (fun p => RTok.lit c :: p) := by
  have hmem : c ∉ rxSpecial ∧ c ≠ '.' := by
    simpa [isPlainCh] using hc
  have hb : c ≠ '\\' := by
    intro h; exact hmem.1 (h ▸ (by decide : ('\\' : Char) ∈ rxSpecial))
  show compileLiteGo false (c :: r) = (compileLiteGo false r).map (fun p => RTok.lit c :: p)
  rw [compileLiteGo, if_neg (by simp), if_neg hb, if_neg hmem.1, if_neg hmem.2]

theorem compileLite_plain_append (a b : List Char) (ha : ∀ c ∈ a, isPlainCh c = true) :
    compileLite (a ++ b) = (compileLite b).map (fun q => litPat a ++ q) := by
  induction a with
  | nil =>
    cases h : compileLite b <;> simp [litPat, h]
  | cons c a ih =>
    rw [List.cons_append, compileLite_plain_cons c _ (ha c (List.mem_cons_self c a)),
      ih (fun x hx => ha x (List.mem_cons_of_mem c hx))]
    cases compileLite b <;> simp [litPat]

theorem compileLite_plain (a : List Char) (ha : ∀ c ∈ a, isPlainCh c = true) :
    compileLite a = some (litPat a) := by
  have h := compileLite_plain_append a [] ha
  simpa [compileLite, compileLiteGo, litPat] using h

theorem plainStr_forall {s : String} (h : plainStr s = true) :
    ∀ c ∈ s.data, isPlainCh c = true := by
  simpa [plainStr, List.all_eq_true] using h

theorem expandGo_no_dollar (w : List Char) :
    ∀ (fuel : Nat) (r : List Char), r.length ≤ fuel → (∀ c ∈ r, c ≠ '$') →
      expandGo w fuel r = r := by
  intro fuel
  induction fuel with
  | zero =>
    intro r hr _
    cases r with
    | nil => rfl
    | cons c r => simp at hr
  | succ f ih =>
    intro r hr hd
    cases r with
    | nil => rfl
    | cons c r =>
      have hc : c ≠ '$' := hd c (List.mem_cons_self c r)
      rw [expandGo, if_neg hc, ih r (by simpa using Nat.le_of_succ_le_succ hr)
        (fun x hx => hd x (List.mem_cons_of_mem c hx))]

theorem expandRepl_no_dollar (w r : List Char) (hd : ∀ c ∈ r, c ≠ '$') :
    expandRepl w r = r :=
  expandGo_no_dollar w r.length r (Nat.le_refl _) hd

theorem replaceAllGo_fuel (p : List RTok) (r : List Char) :
    ∀ (f1 : Nat), ∀ (f2 : Nat) (s : List Char), s.length ≤ f1 → s.length ≤ f2 →
      replaceAllGo p r f1 s = replaceAllGo p r f2 s := by
  intro f1
  induction f1 with
  | zero =>
    intro f2 s h1 _
    cases s with
    | nil => cases f2 <;> rfl
    | cons c s => simp at h1
  | succ f ih =>
    intro f2 s h1 h2
    cases s with
    | nil => cases f2 <;> rfl
    | cons c s =>
      cases f2 with
      | zero => simp at h2
      | succ f2 =>
        have hs : s.length ≤ f := by simp only [List.length_cons] at h1; omega
        have hs2 : s.length ≤ f2 := by simp only [List.length_cons] at h2; omega
        by_cases hm : matchesAt p (c :: s) = true
        · rw [replaceAllGo, replaceAllGo, if_pos hm, if_pos hm,
            ih f2 (s.drop (p.length - 1)) (Nat.le_trans (by simp) hs)
              (Nat.le_trans (by simp) hs2)]
        · rw [replaceAllGo, replaceAllGo, if_neg hm, if_neg hm, ih f2 s hs hs2]

theorem replaceAllGo_eq_replaceAll (p : List RTok) (r : List Char) (fuel : Nat)
    (s : List Char) (h : s.length ≤ fuel) :
    replaceAllGo p r fuel s = replaceAll p r s :=
  replaceAllGo_fuel p r fuel s.length s h (Nat.le_refl _)

theorem replaceAll_no_match (p : List RTok) (r : List Char) :
    ∀ s : List Char, (∀ j < s.length, matchesAt p (s.drop j) = false) →
      replaceAll p r s = s := by
  intro s
  induction s with
  | nil => intro _; rfl
  | cons c s ih =>
    intro h
    have h0 : matchesAt p (c :: s) = false := by simpa using h 0 (Nat.succ_pos _)
    rw [replaceAll]
    simp only [List.length_cons]
    rw [replaceAllGo, if_neg (by simp [h0]),
      replaceAllGo_eq_replaceAll p r _ s (Nat.le_refl _), ih]
    intro j hj
    simpa using h (j + 1) (Nat.succ_lt_succ hj)

theorem replaceAll_split (p : List RTok) (r m t2 : List Char) :
    ∀ t1 : List Char, p ≠ [] → m.length = p.length →
      matchesAt p (m ++ t2) = true →
      (∀ j < t1.length, matchesAt p ((t1 ++ m ++ t2).drop j) = false) →
      replaceAll p r (t1 ++ m ++ t2) = t1 ++ expandRepl m r ++ replaceAll p r t2 := by
  intro t1
  induction t1 with
  | nil =>
    intro hp hlen hm _
    cases m with
    | nil =>
      exact absurd (List.length_eq_zero.1 (by simpa using hlen.symm)) hp
    | cons a m =>
      simp only [List.nil_append, List.cons_append]
      rw [replaceAll]
      simp only [List.length_cons]
      rw [replaceAllGo, if_pos (by simpa using hm)]
      have hdrop : (m ++ t2).drop (p.length - 1) = t2 := by
        rw [← hlen]
        simp only [List.length_cons, Nat.add_sub_cancel]
        exact List.drop_left m t2
      have htake : (a :: (m ++ t2)).take p.length = a :: m := by
        rw [← hlen]
        exact List.take_left (a :: m) t2
      rw [hdrop, htake,
        replaceAllGo_eq_replaceAll p r _ t2 (by simp)]
  | cons c t1 ih =>
    intro hp hlen hm hnone
    have h0 : matchesAt p (c :: (t1 ++ m ++ t2)) = false := by
      simpa using hnone 0 (Nat.succ_pos _)
    have ih2 := ih hp hlen hm
      (fun j hj => by simpa using hnone (j + 1) (Nat.succ_lt_succ hj))
    simp only [List.cons_append]
    rw [replaceAll]
    simp only [List.length_cons]
    rw [replaceAllGo, if_neg (by simpa using h0),
      replaceAllGo_eq_replaceAll p r _ _ (Nat.le_refl _), ih2]

/-! Lemmas about the serial number scanner. -/

theorem matchSerialAt_nil : matchSerialAt [] = none := rfl

theorem replaceAllSerialGo_fuel (r : List Char) :
    ∀ (f1 : Nat), ∀ (f2 : Nat) (s : List Char), s.length ≤ f1 → s.length ≤ f2 →
      replaceAllSerialGo r f1 s = replaceAllSerialGo r f2 s := by
  intro f1
  induction f1 with
  | zero =>
    intro f2 s h1 _
    cases s with
    | nil => cases f2 <;> rfl
    | cons c s => simp at h1
  | succ f ih =>
    intro f2 s h1 h2
    cases s with
    | nil => cases f2 <;> rfl
    | cons c s =>
      cases f2 with
      | zero => simp at h2
      | succ f2 =>
        have hs : s.length ≤ f := by simp only [List.length_cons] at h1; omega
        have hs2 : s.length ≤ f2 := by simp only [List.length_cons] at h2; omega
        rw [replaceAllSerialGo, replaceAllSerialGo]
        cases hm : matchSerialAt (c :: s) with
        | none => rw [ih f2 s hs hs2]
        | some v =>
          obtain ⟨len, d⟩ := v
          show r ++ replaceAllSerialGo r f (s.drop (len - 1)) =
            r ++ replaceAllSerialGo r f2 (s.drop (len - 1))
          rw [ih f2 (s.drop (len - 1)) (Nat.le_trans (by simp) hs)
            (Nat.le_trans (by simp) hs2)]

theorem replaceAllSerialGo_eq (r : List Char) (fuel : Nat) (s : List Char)
    (h : s.length ≤ fuel) : replaceAllSerialGo r fuel s = replaceAllSerial r s :=
  replaceAllSerialGo_fuel r fuel s.length s h (Nat.le_refl _)

theorem replaceAllSerial_no_match (r : List Char) :
    ∀ s : List Char, (∀ j < s.length, matchSerialAt (s.drop j) = none) →
      replaceAllSerial r s = s := by
  intro s
  induction s with
  | nil => intro _; rfl
  | cons c s ih =>
    intro h
    have h0 : matchSerialAt (c :: s) = none := by simpa using h 0 (Nat.succ_pos _)
    rw [replaceAllSerial]
    simp only [List.length_cons]
    rw [replaceAllSerialGo, h0, replaceAllSerialGo_eq r _ s (Nat.le_refl _), ih]
    intro j hj
    simpa using h (j + 1) (Nat.succ_lt_succ hj)

theorem replaceAllSerial_split (r mid t2 digs : List Char) :
    ∀ t1 : List Char, mid ≠ [] →
      matchSerialAt (mid ++ t2) = some (mid.length, digs) →
      (∀ j < t1.length, matchSerialAt ((t1 ++ mid ++ t2).drop j) = none) →
      replaceAllSerial r (t1 ++ mid ++ t2) = t1 ++ r ++ replaceAllSerial r t2 := by
  intro t1
  induction t1 with
  | nil =>
    intro hmid hm _
    cases mid with
    | nil => exact absurd rfl hmid
    | cons a mid =>
      simp only [List.nil_append, List.cons_append]
      rw [replaceAllSerial]
      simp only [List.length_cons]
      rw [replaceAllSerialGo, (by simpa using hm : matchSerialAt (a :: (mid ++ t2)) =
        some ((a :: mid).length, digs))]
      have hdrop : (mid ++ t2).drop ((a :: mid).length - 1) = t2 := by
        simp only [List.length_cons, Nat.add_sub_cancel]
        exact List.drop_left mid t2
      show r ++ replaceAllSerialGo r (mid ++ t2).length
          ((mid ++ t2).drop ((a :: mid).length - 1)) = r ++ replaceAllSerial r t2
      rw [hdrop, replaceAllSerialGo_eq r _ t2 (by simp)]
  | cons c t1 ih =>
    intro hmid hm hnone
    have h0 : matchSerialAt (c :: (t1 ++ mid ++ t2)) = none := by
      simpa using hnone 0 (Nat.succ_pos _)
    have ih2 := ih hmid hm
      (fun j hj => by simpa using hnone (j + 1) (Nat.succ_lt_succ hj))
    simp only [List.cons_append]
    rw [replaceAllSerial]
    simp only [List.length_cons]
    rw [replaceAllSerialGo, h0, replaceAllSerialGo_eq r _ _ (Nat.le_refl _), ih2]

theorem findSerialDigits_no_match :
    ∀ s : List Char, (∀ j < s.length, matchSerialAt (s.drop j) = none) →
      findSerialDigits s = none := by
  intro s
  induction s with
  | nil => intro _; rfl
  | cons c s ih =>
    intro h
    have h0 : matchSerialAt (c :: s) = none := by simpa using h 0 (Nat.succ_pos _)
    rw [findSerialDigits, h0, ih]
    intro j hj
    simpa using h (j + 1) (Nat.succ_lt_succ hj)

theorem findSerialDigits_split (mid t2 digs : List Char) :
    ∀ t1 : List Char,
      matchSerialAt (mid ++ t2) = some (mid.length, digs) →
      (∀ j < t1.length, matchSerialAt ((t1 ++ mid ++ t2).drop j) = none) →
      findSerialDigits (t1 ++ mid ++ t2) = some digs := by
  intro t1
  induction t1 with
  | nil =>
    intro hm _
    cases mid with
    | nil =>
      cases t2 with
      | nil => exact absurd (matchSerialAt_nil.symm.trans hm) (by simp)
      | cons a t2 =>
        simp only [List.nil_append]
        rw [findSerialDigits, (by simpa using hm : matchSerialAt (a :: t2) =
          some (([] : List Char).length, digs))]
    | cons a mid =>
      simp only [List.nil_append, List.cons_append]
      rw [findSerialDigits, (by simpa using hm : matchSerialAt (a :: (mid ++ t2)) =
        some ((a :: mid).length, digs))]
  | cons c t1 ih =>
    intro hm hnone
    have h0 : matchSerialAt (c :: (t1 ++ mid ++ t2)) = none := by
      simpa using hnone 0 (Nat.succ_pos _)
    simp only [List.cons_append]
    rw [findSerialDigits, h0,
      ih hm (fun j hj => by simpa using hnone (j + 1) (Nat.succ_lt_succ hj))]


theorem matchSerialAt_field (digs rest : List Char)
    (hd : ∀ c ∈ digs, isDigitCh c = true) :
    matchSerialAt (digs ++ serialSep ++ rest) = some (digs.length + 16, digs) := by
  have htake : (digs ++ serialSep ++ rest).takeWhile isDigitCh = digs := by
    rw [List.append_assoc, List.takeWhile_append_of_pos hd]
    simp [serialSep, List.takeWhile_cons, isDigitCh]
  have hdropw : (digs ++ serialSep ++ rest).dropWhile isDigitCh = serialSep ++ rest := by
    rw [List.append_assoc, List.dropWhile_append_of_pos hd]
    simp [serialSep, List.dropWhile_cons, isDigitCh]
  rw [matchSerialAt]
  simp only [htake, hdropw]
  have hpre : serialLit.isPrefixOf (serialLit ++ rest) = true :=
    List.isPrefixOf_iff_prefix.2 (List.prefix_append _ _)
  have hsemi : matchSemiTail (' ' :: (serialLit ++ rest)) = some (1 + serialLit.length) := by
    rw [matchSemiTail, if_neg (by simp [serialLit, List.isPrefixOf_cons₂]),
      if_pos (by simp [isSpaceCh, hpre])]
  show (match serialSep ++ rest with
    | [] => none
    | c :: r2 =>
      if c = ';' then (matchSemiTail r2).map (fun k => (digs.length + 1 + k, digs))
      else if isSpaceCh c then
        match r2 with
        | [] => none
        | d :: r3 =>
          if d = ';' then (matchSemiTail r3).map (fun k => (digs.length + 2 + k, digs))
          else none
      else none) = some (digs.length + 16, digs)
  show (if (' ' : Char) = ';' then _ else _) = _
  rw [if_neg (by decide), if_pos (by decide : isSpaceCh ' ' = true)]
  show (if (';' : Char) = ';' then
    (matchSemiTail (' ' :: (serialLit ++ rest))).map
      (fun k => (digs.length + 2 + k, digs)) else none) = _
  rw [if_pos rfl, hsemi]
  show some (digs.length + 2 + (1 + serialLit.length), digs) = some (digs.length + 16, digs)
  have : serialLit.length = 13 := by decide
  rw [this]

/-! Lemmas about the managed block search. -/

theorem findIdx_none_iff (p : List RTok) (hp : matchesAt p [] = false) :
    ∀ s : List Char, (findIdx p s = none ↔ ∀ j, matchesAt p (s.drop j) = false) := by
  intro s
  induction s with
  | nil =>
    constructor
    · intro _ j
      rw [List.drop_nil]
      exact hp
    · intro _
      rw [findIdx, if_neg (by simp [hp])]
  | cons c s ih =>
    cases h0 : matchesAt p (c :: s) with
    | true =>
      rw [findIdx, if_pos h0]
      constructor
      · intro h; exact absurd h (by simp)
      · intro h; exact absurd (h 0) (by simp [h0])
    | false =>
      rw [findIdx, if_neg (by simp [h0])]
      constructor
      · intro h j
        have hs : findIdx p s = none := by
          cases hfi : findIdx p s with
          | none => rfl
          | some k => rw [hfi] at h; exact absurd h (by simp)
        cases j with
        | zero => simpa using h0
        | succ j => simpa using ih.1 hs j
      · intro h
        rw [ih.2 (fun j => by simpa using h (j + 1))]
        rfl

theorem findIdx_some (p : List RTok) :
    ∀ (s : List Char) (j : Nat), matchesAt p (s.drop j) = true →
      (∀ k < j, matchesAt p (s.drop k) = false) → findIdx p s = some j := by
  intro s
  induction s with
  | nil =>
    intro j hj hk
    cases j with
    | zero =>
      rw [List.drop_nil] at hj
      rw [findIdx, if_pos hj]
    | succ j =>
      have := hk 0 (Nat.succ_pos _)
      rw [List.drop_nil] at hj this
      exact absurd hj (by simp [this])
  | cons c s ih =>
    intro j hj hk
    cases j with
    | zero => rw [findIdx, if_pos (by simpa using hj)]
    | succ j =>
      have h0 : matchesAt p (c :: s) = false := by simpa using hk 0 (Nat.succ_pos _)
      rw [findIdx, if_neg (by simp [h0]),
        ih j (by simpa using hj)
          (fun k hkk => by simpa using hk (k + 1) (Nat.succ_lt_succ hkk))]
      rfl

theorem extractLoop_none_iff (op cp : List RTok) (hop : matchesAt op [] = false)
    (hcp : matchesAt cp [] = false) :
    ∀ s : List Char, (extractLoop op cp s = none ↔
      ∀ i, matchesAt op (s.drop i) = true →
        findIdx cp ((s.drop i).drop op.length) = none) := by
  intro s
  induction s with
  | nil =>
    constructor
    · intro _ i hi
      rw [List.drop_nil] at hi
      exact absurd hi (by simp [hop])
    · intro _
      rfl
  | cons c s ih =>
    cases h0 : matchesAt op (c :: s) with
    | true =>
      rw [extractLoop, if_pos h0]
      constructor
      · intro h i hi
        have hnone : findIdx cp ((c :: s).drop op.length) = none := by
          cases hfi : findIdx cp ((c :: s).drop op.length) with
          | none => rfl
          | some j => rw [hfi] at h; exact absurd h (by simp)
        have hall := (findIdx_none_iff cp hcp _).1 hnone
        apply (findIdx_none_iff cp hcp _).2
        intro j
        have hidx := hall (i + j)
        simp only [List.drop_drop] at hidx ⊢
        rw [show i + op.length + j = op.length + (i + j) from by omega]
        exact hidx
      · intro h
        have h1 := h 0 (by simpa using h0)
        rw [List.drop_zero] at h1
        rw [h1]
    | false =>
      rw [extractLoop, if_neg (by simp [h0]), ih]
      constructor
      · intro h i hi
        cases i with
        | zero =>
          rw [List.drop_zero] at hi
          exact absurd hi (by simp [h0])
        | succ i =>
          rw [List.drop_succ_cons] at hi
          have := h i hi
          rw [List.drop_succ_cons]
          exact this
      · intro h i hi
        have := h (i + 1) (by simpa using hi)
        simpa using this

theorem extractLoop_found (opL cpL mid t2 : List Char) (hopL : opL ≠ []) :
    ∀ t1 : List Char,
      (∀ i < t1.length,
        opL.isPrefixOf ((t1 ++ opL ++ mid ++ cpL ++ t2).drop i) = false) →
      (∀ k < mid.length, cpL.isPrefixOf ((mid ++ (cpL ++ t2)).drop k) = false) →
      extractLoop (litPat opL) (litPat cpL) (t1 ++ opL ++ mid ++ cpL ++ t2) = some mid := by
  intro t1
  induction t1 with
  | nil =>
    intro _ hmid
    cases opL with
    | nil => exact absurd rfl hopL
    | cons a opL =>
      simp only [List.nil_append, List.cons_append]
      have hm : matchesAt (litPat (a :: opL)) (a :: (opL ++ mid ++ cpL ++ t2)) = true := by
        rw [matchesAt_litPat]
        exact List.isPrefixOf_iff_prefix.2 (by
          rw [show a :: (opL ++ mid ++ cpL ++ t2) = (a :: opL) ++ (mid ++ cpL ++ t2) from by
            simp]
          exact List.prefix_append _ _)
      rw [extractLoop, if_pos hm]
      have hdrop : (a :: (opL ++ mid ++ cpL ++ t2)).drop (litPat (a :: opL)).length =
          mid ++ (cpL ++ t2) := by
        rw [litPat_length]
        rw [show a :: (opL ++ mid ++ cpL ++ t2) = (a :: opL) ++ (mid ++ (cpL ++ t2)) from by
          simp]
        exact List.drop_left _ _
      rw [hdrop]
      have hfind : findIdx (litPat cpL) (mid ++ (cpL ++ t2)) = some mid.length := by
        apply findIdx_some
        · rw [List.drop_left, matchesAt_litPat]
          exact List.isPrefixOf_iff_prefix.2 (List.prefix_append _ _)
        · intro k hk
          rw [matchesAt_litPat]
          exact hmid k hk
      rw [hfind]
      show some (List.take mid.length (mid ++ (cpL ++ t2))) = some mid
      rw [List.take_left]
  | cons c t1 ih =>
    intro hno hmid
    have h0 : matchesAt (litPat opL) (c :: (t1 ++ opL ++ mid ++ cpL ++ t2)) = false := by
      rw [matchesAt_litPat]
      simpa using hno 0 (Nat.succ_pos _)
    simp only [List.cons_append]
    rw [extractLoop, if_neg (by simpa using h0),
      ih (fun i hi => by simpa using hno (i + 1) (Nat.succ_lt_succ hi)) hmid]

/-! Occurrence lemmas for the round trip claim. -/

/-- An occurrence of the record line plus newline that starts strictly
inside the text before an inserted copy and overlaps the copy forces a
newline inside the record line; with a newline-free line every such
occurrence lies wholly in the preceding text. -/
theorem newline_no_overlap (line t1 : List Char) (hnl : '\n' ∉ line) (j : Nat)
    (hj : j < t1.length)
    (h : (line ++ ['\n']).isPrefixOf ((t1 ++ (line ++ ['\n'])).drop j) = true) :
    j + (line.length + 1) ≤ t1.length := by
  by_contra hcon
  have hlt : t1.length < j + (line.length + 1) := Nat.lt_of_not_le hcon
  set L : List Char := line ++ ['\n'] with hLdef
  have hLlen : L.length = line.length + 1 := by simp [hLdef]
  obtain ⟨u, hu⟩ := List.isPrefixOf_iff_prefix.1 h
  rw [List.drop_append_of_le_length (Nat.le_of_lt hj)] at hu
  set a : List Char := t1.drop j with hadef
  have halen : a.length = t1.length - j := by simp [hadef]
  have ha1 : 1 ≤ a.length := by omega
  have ha2 : a.length < L.length := by omega
  have hpa : a <+: L := by
    apply List.prefix_of_prefix_length_le _ (List.prefix_append L u) (Nat.le_of_lt ha2)
    exact hu ▸ List.prefix_append a L
  obtain ⟨w, hw⟩ := hpa
  have hwu : w ++ u = L := by
    have : a ++ (w ++ u) = a ++ L := by
      rw [← List.append_assoc, hw, ← hu]
    exact List.append_cancel_left this
  have hwline : w <+: line := by
    apply List.prefix_of_prefix_length_le _ (List.prefix_append line ['\n'])
    · have hwl : w.length + u.length = L.length := by
        rw [← List.length_append, hwu]
      have hul : u.length = a.length := by
        have h1 : L.length + u.length = a.length + L.length := by
          rw [← List.length_append, hu, List.length_append]
        omega
      omega
    · exact ⟨u, hwu⟩
  have hnw : '\n' ∈ w := by
    have hw2 : a ++ w = line ++ ['\n'] := hw
    have hle : a.length ≤ line.length := by omega
    have : w = line.drop a.length ++ ['\n'] := by
      have := congrArg (List.drop a.length) hw2
      rw [List.drop_left, List.drop_append_of_le_length hle] at this
      exact this
    rw [this]
    simp
  exact hnl (hwline.subset hnw)

theorem isPrefixOf_restrict (P Y Z : List Char) (h : P.isPrefixOf (Y ++ Z) = true)
    (hl : P.length ≤ Y.length) : P.isPrefixOf Y = true :=
  List.isPrefixOf_iff_prefix.2
    (List.prefix_of_prefix_length_le (List.isPrefixOf_iff_prefix.1 h)
      (List.prefix_append Y Z) hl)

theorem isPrefixOf_extend (P Y Z : List Char) (h : P.isPrefixOf Y = true) :
    P.isPrefixOf (Y ++ Z) = true :=
  List.isPrefixOf_iff_prefix.2
    ((List.isPrefixOf_iff_prefix.1 h).trans (List.prefix_append Y Z))

/-! Lemmas about the in-memory record store. -/


theorem mapGet_mapPut_self (st : Store) (k v : String) :
    mapGet (mapPut st k v) k = some v := by
  simp [mapGet, mapPut, List.find?]

theorem countKey_mapPut_self (st : Store) (k v : String) :
    countKey (mapPut st k v) k = 1 := by
  simp only [countKey, mapPut, List.filter_cons]
  rw [if_pos (by simp)]
  rw [List.filter_filter]
  rw [List.filter_eq_nil_iff.2 (fun a _ => by
    cases hak : a.fst == k <;> simp [hak])]
  rfl

theorem mapGet_mapDel_self (st : Store) (k : String) :
    mapGet (mapDel st k) k = none := by
  have hfind : List.find? (fun e => e.fst == k) (mapDel st k) = none := by
    rw [List.find?_eq_none]
    intro e he
    have h2 := (List.mem_filter.1 he).2
    cases hek : e.fst == k
    · simp [hek]
    · rw [hek] at h2; exact absurd h2 (by simp)
  simp [mapGet, hfind]

/-! Compilation of the concrete marker patterns. -/




theorem noDollar_forall {s : String} (h : noDollar s = true) : ∀ c ∈ s.data, c ≠ '$' := by
  intro c hc
  have := (List.all_eq_true.1 h) c hc
  simpa using this

theorem plain_noDollar {s : String} (h : plainStr s = true) : noDollar s = true := by
  rw [noDollar, List.all_eq_true]
  intro c hc
  have := plainStr_forall h c hc
  have hd : c ≠ '$' := by
    intro hcd
    rw [hcd] at this
    exact absurd this (by decide)
  simpa using hd

theorem closeChars_plain (pfx : String) (hp : plainStr pfx = true) :
    ∀ c ∈ closeChars pfx, isPlainCh c = true := by
  intro c hc
  simp only [closeChars, String.data_append, List.mem_append] at hc
  rcases hc with (hc | hc) | hc
  · exact (by decide : ∀ c ∈ "; ".data, isPlainCh c = true) c hc
  · exact plainStr_forall hp c hc
  · exact (by decide : ∀ c ∈ "-ACME-BOT-END".data, isPlainCh c = true) c hc

theorem closeChars_ne_nil (pfx : String) : closeChars pfx ≠ [] := by
  simp [closeChars, String.data_append]

theorem compileLite_close (pfx : String) (hp : plainStr pfx = true) :
    compileLite ("; " ++ pfx ++ "-ACME-BOT-END").data = some (litPat (closeChars pfx)) :=
  compileLite_plain _ (closeChars_plain pfx hp)

theorem openBody_plain (pfx : String) (hp : plainStr pfx = true) :
    ∀ c ∈ ("; ".data ++ pfx.data ++ "-ACME-BOT".data), isPlainCh c = true := by
  intro c hc
  simp only [List.mem_append] at hc
  rcases hc with (hc | hc) | hc
  · exact (by decide : ∀ c ∈ "; ".data, isPlainCh c = true) c hc
  · exact plainStr_forall hp c hc
  · exact (by decide : ∀ c ∈ "-ACME-BOT".data, isPlainCh c = true) c hc

theorem compileLite_open (pfx : String) (hp : plainStr pfx = true) :
    compileLite ("; " ++ pfx ++ "-ACME-BOT\\n").data = some (litPat (openChars pfx)) := by
  have hsplit : ("; " ++ pfx ++ "-ACME-BOT\\n").data =
      ("; ".data ++ pfx.data ++ "-ACME-BOT".data) ++ ['\\', 'n'] := by
    simp [String.data_append, List.append_assoc]
  rw [hsplit, compileLite_plain_append _ _ (openBody_plain pfx hp),
    show compileLite ['\\', 'n'] = some [RTok.lit '\n'] from rfl]
  simp [litPat, openChars, String.data_append]

theorem openChars_ne_nil (pfx : String) : openChars pfx ≠ [] := by
  simp [openChars]

theorem compileLite_record (line : String) (hl : plainStr line = true) :
    compileLite (line ++ "\\n").data = some (litPat (line.data ++ ['\n'])) := by
  rw [String.data_append, compileLite_plain_append _ _ (plainStr_forall hl),
    show compileLite "\\n".data = some [RTok.lit '\n'] from rfl]
  simp [litPat]



/-! Behavioral lemmas for addTxtRecord and removeTxtRecord. -/

theorem addTxtRecord_ok (content rec pfx : String) (hp : plainStr pfx = true) :
    addTxtRecord content rec pfx = Except.ok (String.mk
      (replaceAll (litPat (closeChars pfx))
        (rec ++ "\n; " ++ pfx ++ "-ACME-BOT-END").data content.data)) := by
  unfold addTxtRecord
  rw [compileLite_close pfx hp]

theorem addRepl_data (rec pfx : String) :
    (rec ++ "\n; " ++ pfx ++ "-ACME-BOT-END").data = rec.data ++ '\n' :: closeChars pfx := by
  simp [closeChars, String.data_append, List.append_assoc]

theorem addRepl_no_dollar (rec pfx : String) (h1 : noDollar rec = true)
    (hp : plainStr pfx = true) :
    ∀ c ∈ rec.data ++ '\n' :: closeChars pfx, c ≠ '$' := by
  intro c hc
  rcases List.mem_append.1 hc with hc | hc
  · exact noDollar_forall h1 c hc
  · rcases List.mem_cons.1 hc with hc | hc
    · rw [hc]; decide
    · have hpl := closeChars_plain pfx hp c hc
      intro hcd
      rw [hcd] at hpl
      exact absurd hpl (by decide)

theorem addTxt_single (rec pfx : String) (t1 t2 : List Char)
    (hp : plainStr pfx = true) (hr : noDollar rec = true)
    (h1 : ∀ j < t1.length,
      (closeChars pfx).isPrefixOf ((t1 ++ closeChars pfx ++ t2).drop j) = false)
    (h2 : ∀ j < t2.length, (closeChars pfx).isPrefixOf (t2.drop j) = false) :
    addTxtRecord (String.mk (t1 ++ closeChars pfx ++ t2)) rec pfx =
      Except.ok (String.mk (t1 ++ (rec.data ++ '\n' :: closeChars pfx) ++ t2)) := by
  rw [addTxtRecord_ok _ _ _ hp]
  congr 2
  show replaceAll (litPat (closeChars pfx)) (rec ++ "\n; " ++ pfx ++ "-ACME-BOT-END").data
      (t1 ++ closeChars pfx ++ t2) = t1 ++ (rec.data ++ '\n' :: closeChars pfx) ++ t2
  rw [addRepl_data,
    replaceAll_split (litPat (closeChars pfx)) _ (closeChars pfx) t2 t1
      (by simpa [litPat] using closeChars_ne_nil pfx)
      (litPat_length _).symm
      (by rw [matchesAt_litPat]
          exact isPrefixOf_extend _ _ _
            (List.isPrefixOf_iff_prefix.2 (List.prefix_refl _)))
      (fun j hj => by rw [matchesAt_litPat]; exact h1 j hj),
    expandRepl_no_dollar _ _ (addRepl_no_dollar rec pfx hr hp),
    replaceAll_no_match _ _ t2 (fun j hj => by rw [matchesAt_litPat]; exact h2 j hj)]

theorem removeTxt_ok (content rec : String) (hr : plainStr rec = true) :
    removeTxtRecord content rec = Except.ok (String.mk
      (replaceAll (litPat (rec.data ++ ['\n'])) [] content.data)) := by
  unfold removeTxtRecord
  rw [compileLite_record rec hr]

theorem removeTxt_no_match (content rec : String) (hr : plainStr rec = true)
    (h : ∀ j < content.data.length,
      (rec.data ++ ['\n']).isPrefixOf (content.data.drop j) = false) :
    removeTxtRecord content rec = Except.ok content := by
  rw [removeTxt_ok _ _ hr,
    replaceAll_no_match _ _ _ (fun j hj => by rw [matchesAt_litPat]; exact h j hj)]

/-! Claim theorems. -/

/-- Claim C1, counterexample: addTxtRecord uses Go ReplaceAllString, so on a
zone text with two occurrences of the closing marker both are replaced; the
claim predicts that only the first is replaced and the second left
unchanged, which names a different output string. -/
theorem C1_counterexample :
    addTxtRecord "A; P-ACME-BOT-ENDB; P-ACME-BOT-END" "r" "P" =
      Except.ok "Ar\n; P-ACME-BOT-ENDBr\n; P-ACME-BOT-END" ∧
    ("Ar\n; P-ACME-BOT-ENDBr\n; P-ACME-BOT-END" : String) ≠
      "Ar\n; P-ACME-BOT-ENDB; P-ACME-BOT-END" :=
  ⟨rfl, by decide⟩

/-- Claim C1 (amended): insertRecord replaces every occurrence of the
closing-marker substring with the record line, a newline and the marker;
in particular, when the marker occurs exactly once, the zone text
decomposed as t1, marker, t2 becomes t1, record line, newline, marker,
t2.  The prefix stays in the literal regex fragment and the record line
carries no dollar character. -/
theorem C1_amended (pfx rec : String) (t1 t2 : List Char)
    (hp : plainStr pfx = true) (hr : noDollar rec = true)
    (h1 : ∀ j < t1.length,
      (closeChars pfx).isPrefixOf ((t1 ++ closeChars pfx ++ t2).drop j) = false)
    (h2 : ∀ j < t2.length, (closeChars pfx).isPrefixOf (t2.drop j) = false) :
    addTxtRecord (String.mk (t1 ++ closeChars pfx ++ t2)) rec pfx =
      Except.ok (String.mk (t1 ++ (rec.data ++ '\n' :: closeChars pfx) ++ t2)) :=
  addTxt_single rec pfx t1 t2 hp hr h1 h2

/-- Witness for C1 (amended) at a concrete zone text. -/
theorem C1_amended_witness :
    addTxtRecord (String.mk ("zone\n".data ++ closeChars "P" ++ "\n".data)) "x" "P" =
      Except.ok (String.mk ("zone\n".data ++ ("x".data ++ '\n' :: closeChars "P") ++ "\n".data)) :=
  C1_amended "P" "x" "zone\n".data "\n".data (by decide) (by decide) (by decide) (by decide)

/-- Claim C2, counterexample: removeTxtRecord uses Go ReplaceAllString, so
with two occurrences of the record line both are deleted; the claim
predicts that only the first is deleted, which names a different output
string. -/
theorem C2_counterexample :
    removeTxtRecord "r\nr\nX" "r" = Except.ok "X" ∧ ("X" : String) ≠ "r\nX" :=
  ⟨rfl, by decide⟩

/-- Claim C2 (amended): removeRecord deletes every non-overlapping match
of the record line plus newline, the line being compiled as a regular
expression; in particular both copies go when two occurrences exist, and
the text is returned unchanged, without error, when there is no match. -/
theorem C2_amended :
    (∀ content rec : String, plainStr rec = true →
      (∀ j < content.data.length,
        (rec.data ++ ['\n']).isPrefixOf (content.data.drop j) = false) →
      removeTxtRecord content rec = Except.ok content) ∧
    (∀ (rec : String) (t1 t2 t3 : List Char), plainStr rec = true →
      (∀ j < t1.length, (rec.data ++ ['\n']).isPrefixOf
        ((t1 ++ (rec.data ++ ['\n']) ++ t2 ++ (rec.data ++ ['\n']) ++ t3).drop j) = false) →
      (∀ j < t2.length, (rec.data ++ ['\n']).isPrefixOf
        ((t2 ++ (rec.data ++ ['\n']) ++ t3).drop j) = false) →
      (∀ j < t3.length, (rec.data ++ ['\n']).isPrefixOf (t3.drop j) = false) →
      removeTxtRecord (String.mk
          (t1 ++ (rec.data ++ ['\n']) ++ t2 ++ (rec.data ++ ['\n']) ++ t3)) rec =
        Except.ok (String.mk (t1 ++ t2 ++ t3))) := by
  constructor
  · intro content rec hr h
    exact removeTxt_no_match content rec hr h
  · intro rec t1 t2 t3 hr h1 h2 h3
    have hpne : litPat (rec.data ++ ['\n']) ≠ [] := by simp [litPat]
    have hlen := (litPat_length (rec.data ++ ['\n'])).symm
    have hself : ∀ X : List Char,
        matchesAt (litPat (rec.data ++ ['\n'])) ((rec.data ++ ['\n']) ++ X) = true := by
      intro X
      rw [matchesAt_litPat]
      exact isPrefixOf_extend _ _ _ (List.isPrefixOf_iff_prefix.2 (List.prefix_refl _))
    rw [removeTxt_ok _ _ hr]
    congr 2
    rw [show (String.mk (t1 ++ (rec.data ++ ['\n']) ++ t2 ++ (rec.data ++ ['\n']) ++ t3)).data
        = t1 ++ (rec.data ++ ['\n']) ++ (t2 ++ (rec.data ++ ['\n']) ++ t3) from by
      simp [List.append_assoc]]
    rw [replaceAll_split _ _ _ _ t1 hpne hlen (hself _)
        (fun j hj => by
          rw [matchesAt_litPat]
          have := h1 j hj
          simpa [List.append_assoc] using this),
      replaceAll_split _ _ _ _ t2 hpne hlen (hself _)
        (fun j hj => by
          rw [matchesAt_litPat]
          have := h2 j hj
          simpa [List.append_assoc] using this),
      replaceAll_no_match _ _ t3
        (fun j hj => by rw [matchesAt_litPat]; exact h3 j hj)]
    show t1 ++ expandRepl _ [] ++ (t2 ++ expandRepl _ [] ++ t3) = t1 ++ t2 ++ t3
    rw [show ∀ w : List Char, expandRepl w [] = [] from fun w => rfl]
    simp

/-- Witness for C2 (amended) at concrete inputs, one for each conjunct. -/
theorem C2_amended_witness :
    removeTxtRecord "abc" "r" = Except.ok "abc" ∧
    removeTxtRecord (String.mk ("A\n".data ++ ("r".data ++ ['\n']) ++ "B\n".data ++
        ("r".data ++ ['\n']) ++ "C".data)) "r" =
      Except.ok (String.mk ("A\n".data ++ "B\n".data ++ "C".data)) :=
  ⟨C2_amended.1 "abc" "r" (by decide) (by decide),
   C2_amended.2 "r" "A\n".data "B\n".data "C".data (by decide) (by decide) (by decide)
     (by decide)⟩

/-- Claim C8, confirmed: on a zone text with no occurrence of the closing
marker, insertRecord returns the text unchanged and reports no error. -/
theorem C8_insert_no_marker (content rec pfx : String)
    (hp : plainStr pfx = true)
    (h : ∀ j < content.data.length,
      (closeChars pfx).isPrefixOf (content.data.drop j) = false) :
    addTxtRecord content rec pfx = Except.ok content := by
  rw [addTxtRecord_ok _ _ _ hp,
    replaceAll_no_match _ _ _ (fun j hj => by rw [matchesAt_litPat]; exact h j hj)]

/-- Witness for C8 at a concrete marker-free zone text. -/
theorem C8_insert_no_marker_witness :
    addTxtRecord "plain zone data" "x" "P" = Except.ok "plain zone data" :=
  C8_insert_no_marker "plain zone data" "x" "P" (by decide) (by decide)

/-- Claim C10, confirmed: removeTxtRecord treats the record line as a
regular expression; a dot in the line matches the letter X of the text, so
the call empties a text in which the literal substring of the line plus
newline never occurs. -/
theorem C10_regex_not_literal :
    removeTxtRecord "aXb            TXT \"k\"\n" "a.b            TXT \"k\"" = Except.ok "" ∧
    containsSub ("a.b            TXT \"k\"" ++ "\n") "aXb            TXT \"k\"\n" = false ∧
    ("" : String) ≠ "aXb            TXT \"k\"\n" :=
  ⟨rfl, by decide, by decide⟩

/-- Claim C3, counterexample: the round trip fails when the record line
holds a regex metacharacter.  The dot of the line also matches the letter
X of the first text line, so removal deletes both lines even though the
line was not literally present before insertion and the closing marker
occurs in the text. -/
theorem C3_counterexample :
    addTxtRecord "aXb            TXT \"k\"\n; P-ACME-BOT-END" "a.b            TXT \"k\"" "P" =
      Except.ok "aXb            TXT \"k\"\na.b            TXT \"k\"\n; P-ACME-BOT-END" ∧
    removeTxtRecord "aXb            TXT \"k\"\na.b            TXT \"k\"\n; P-ACME-BOT-END"
        "a.b            TXT \"k\"" = Except.ok "; P-ACME-BOT-END" ∧
    ("; P-ACME-BOT-END" : String) ≠ "aXb            TXT \"k\"\n; P-ACME-BOT-END" ∧
    containsSub "a.b            TXT \"k\"" "aXb            TXT \"k\"\n; P-ACME-BOT-END" = false ∧
    containsSub "; P-ACME-BOT-END" "aXb            TXT \"k\"\n; P-ACME-BOT-END" = true :=
  ⟨rfl, rfl, by decide, by decide, by decide⟩

/-- Claim C3 (amended): removeRecord after insertRecord restores the zone
text exactly, provided the closing marker occurs exactly once in the text,
the record line stays in the literal regex fragment, holds no newline, and
the record line followed by a newline does not occur in the text. -/
theorem C3_roundtrip (pfx rec : String) (t1 t2 : List Char)
    (hp : plainStr pfx = true) (hr : plainStr rec = true)
    (hnl : '\n' ∉ rec.data)
    (hone : ∀ j < (t1 ++ closeChars pfx ++ t2).length,
      (closeChars pfx).isPrefixOf ((t1 ++ closeChars pfx ++ t2).drop j) = true →
        j = t1.length)
    (hno : ∀ j < (t1 ++ closeChars pfx ++ t2).length,
      (rec.data ++ ['\n']).isPrefixOf ((t1 ++ closeChars pfx ++ t2).drop j) = false) :
    Except.bind (addTxtRecord (String.mk (t1 ++ closeChars pfx ++ t2)) rec pfx)
        (fun mid => removeTxtRecord mid rec) =
      Except.ok (String.mk (t1 ++ closeChars pfx ++ t2)) := by
  have hccpos : 0 < (closeChars pfx).length :=
    List.length_pos.2 (closeChars_ne_nil pfx)
  have hslen : (t1 ++ closeChars pfx ++ t2).length =
      t1.length + (closeChars pfx).length + t2.length := by
    simp [List.length_append]
    omega
  have h1 : ∀ j < t1.length,
      (closeChars pfx).isPrefixOf ((t1 ++ closeChars pfx ++ t2).drop j) = false := by
    intro j hj
    cases hb : (closeChars pfx).isPrefixOf ((t1 ++ closeChars pfx ++ t2).drop j) with
    | false => rfl
    | true =>
      have hjs : j < (t1 ++ closeChars pfx ++ t2).length := by omega
      have := hone j hjs hb
      omega
  have h2 : ∀ j < t2.length, (closeChars pfx).isPrefixOf (t2.drop j) = false := by
    intro j hj
    cases hb : (closeChars pfx).isPrefixOf (t2.drop j) with
    | false => rfl
    | true =>
      have hlift : (t1 ++ closeChars pfx ++ t2).drop
          (t1.length + (closeChars pfx).length + j) = t2.drop j := by
        rw [show t1.length + (closeChars pfx).length + j =
            (t1 ++ closeChars pfx).length + j from by simp [List.length_append],
          ← List.drop_drop, List.drop_left]
      have hb2 : (closeChars pfx).isPrefixOf ((t1 ++ closeChars pfx ++ t2).drop
          (t1.length + (closeChars pfx).length + j)) = true := by
        rw [hlift]; exact hb
      have := hone _ (by omega) hb2
      omega
  rw [addTxt_single rec pfx t1 t2 hp (plain_noDollar hr) h1 h2]
  show removeTxtRecord
      (String.mk (t1 ++ (rec.data ++ '\n' :: closeChars pfx) ++ t2)) rec =
    Except.ok (String.mk (t1 ++ closeChars pfx ++ t2))
  rw [removeTxt_ok _ _ hr]
  congr 2
  rw [show (String.mk (t1 ++ (rec.data ++ '\n' :: closeChars pfx) ++ t2)).data =
      t1 ++ (rec.data ++ ['\n']) ++ (closeChars pfx ++ t2) from by
    simp [List.append_assoc]]
  have hLne : litPat (rec.data ++ ['\n']) ≠ [] := by simp [litPat]
  have hfirst : ∀ j < t1.length,
      matchesAt (litPat (rec.data ++ ['\n']))
        ((t1 ++ (rec.data ++ ['\n']) ++ (closeChars pfx ++ t2)).drop j) = false := by
    intro j hj
    rw [matchesAt_litPat]
    cases hb : (rec.data ++ ['\n']).isPrefixOf
        ((t1 ++ (rec.data ++ ['\n']) ++ (closeChars pfx ++ t2)).drop j) with
    | false => rfl
    | true =>
      exfalso
      rw [show t1 ++ (rec.data ++ ['\n']) ++ (closeChars pfx ++ t2) =
          (t1 ++ (rec.data ++ ['\n'])) ++ (closeChars pfx ++ t2) from by
        simp [List.append_assoc],
        List.drop_append_of_le_length (by simp; omega)] at hb
      have hL1 : (rec.data ++ ['\n']).isPrefixOf
          ((t1 ++ (rec.data ++ ['\n'])).drop j) = true := by
        apply isPrefixOf_restrict _ _ _ hb
        simp only [List.length_drop, List.length_append]
        omega
      have hin := newline_no_overlap rec.data t1 hnl j hj hL1
      rw [List.drop_append_of_le_length (by omega)] at hL1
      have hL2 : (rec.data ++ ['\n']).isPrefixOf (t1.drop j) = true := by
        apply isPrefixOf_restrict _ _ _ hL1
        rw [List.length_drop]
        have hl1 : (rec.data ++ ['\n']).length = rec.data.length + 1 := by simp
        omega
      have hL3 : (rec.data ++ ['\n']).isPrefixOf
          ((t1 ++ closeChars pfx ++ t2).drop j) = true := by
        rw [show t1 ++ closeChars pfx ++ t2 = t1 ++ (closeChars pfx ++ t2) from by
          simp [List.append_assoc],
          List.drop_append_of_le_length (by omega)]
        exact isPrefixOf_extend _ _ _ hL2
      have := hno j (by omega)
      rw [this] at hL3
      exact absurd hL3 (by simp)
  have hrest : ∀ j < (closeChars pfx ++ t2).length,
      matchesAt (litPat (rec.data ++ ['\n'])) ((closeChars pfx ++ t2).drop j) = false := by
    intro j hj
    rw [matchesAt_litPat]
    cases hb : (rec.data ++ ['\n']).isPrefixOf ((closeChars pfx ++ t2).drop j) with
    | false => rfl
    | true =>
      exfalso
      have hlift : (t1 ++ closeChars pfx ++ t2).drop (t1.length + j) =
          (closeChars pfx ++ t2).drop j := by
        rw [show t1 ++ closeChars pfx ++ t2 = t1 ++ (closeChars pfx ++ t2) from by
          simp [List.append_assoc], ← List.drop_drop, List.drop_left]
      have hb2 := hno (t1.length + j) (by
        simp only [List.length_append] at hj ⊢
        omega)
      rw [hlift] at hb2
      rw [hb2] at hb
      exact absurd hb (by simp)
  rw [replaceAll_split _ _ _ _ t1 hLne (litPat_length _).symm
      (by rw [matchesAt_litPat]
          exact isPrefixOf_extend _ _ _
            (List.isPrefixOf_iff_prefix.2 (List.prefix_refl _))) hfirst,
    replaceAll_no_match _ _ _ hrest,
    show ∀ w : List Char, expandRepl w [] = [] from fun w => rfl]
  simp [List.append_assoc]

/-- Witness for C3 (amended) at a concrete zone text and record line. -/
theorem C3_roundtrip_witness :
    Except.bind (addTxtRecord (String.mk ("z\n".data ++ closeChars "P" ++ "\n".data))
        "x TXT \"k\"" "P") (fun mid => removeTxtRecord mid "x TXT \"k\"") =
      Except.ok (String.mk ("z\n".data ++ closeChars "P" ++ "\n".data)) :=
  C3_roundtrip "P" "x TXT \"k\"" "z\n".data "\n".data (by decide) (by decide) (by decide)
    (by decide) (by decide)

/-- Unfolding of increaseSerialNumber once the captured digits of the
leftmost serial pattern match are known. -/
theorem increaseSerialNumber_eq (today content : String) (digs : List Char)
    (h : findSerialDigits content.data = some digs) :
    increaseSerialNumber today content =
      if today.data.isPrefixOf digs then
        match goAtoi (digs.drop today.data.length) with
        | Except.error e => Except.error e
        | Except.ok n =>
          Except.ok (String.mk (replaceAllSerial
            (today ++ fmt02 (if n + 1 > 99 then 0 else n + 1) ++ " ; serial number").data
            content.data))
      else
        Except.ok (String.mk (replaceAllSerial (today ++ "01 ; serial number").data
          content.data)) := by
  unfold increaseSerialNumber
  rw [h]

/-- Claim C4, confirmed: on a zone text holding exactly one serial field
made of a digit run and the separator text, increaseSerialNumber resets
the field to the current date with counter 01 when the digits do not begin
with the date, increments a two-digit counter modulo the 99 wraparound
when they do, and fails with the serial number error when the pattern
matches nowhere in the text. -/
theorem C4_serial (today : String) (pre digs post : List Char)
    (_htoday : today.data.length = 8 ∧ today.data.all isDigitCh = true)
    (hdigs : digs ≠ [] ∧ digs.all isDigitCh = true)
    (hpre : ∀ j < pre.length,
      matchSerialAt ((pre ++ (digs ++ (" ; serial number").data) ++ post).drop j) = none)
    (hpost : ∀ j < post.length, matchSerialAt (post.drop j) = none) :
    (today.data.isPrefixOf digs = false →
      increaseSerialNumber today
          (String.mk (pre ++ (digs ++ (" ; serial number").data) ++ post)) =
        Except.ok (String.mk (pre ++ (today ++ "01 ; serial number").data ++ post))) ∧
    (∀ d1 d2 : Char, digs = today.data ++ [d1, d2] →
      increaseSerialNumber today
          (String.mk (pre ++ (digs ++ (" ; serial number").data) ++ post)) =
        Except.ok (String.mk (pre ++
          (today ++ fmt02 (if natOfDigits [d1, d2] + 1 > 99 then 0
            else natOfDigits [d1, d2] + 1) ++ " ; serial number").data ++ post))) ∧
    (∀ content : String,
      (∀ j < content.data.length, matchSerialAt (content.data.drop j) = none) →
      increaseSerialNumber today content = Except.error GoErr.serialNumberNotFound) := by
  have hsep : (" ; serial number").data = serialSep := rfl
  have hmidlen : (digs ++ serialSep).length = digs.length + 16 := by
    simp [serialSep, serialLit]
  have hmatch : matchSerialAt ((digs ++ serialSep) ++ post) =
      some ((digs ++ serialSep).length, digs) := by
    rw [hmidlen]
    have := matchSerialAt_field digs post (List.all_eq_true.1 hdigs.2)
    simpa [List.append_assoc] using this
  have hmidne : digs ++ serialSep ≠ [] := by
    simp [serialSep]
  have hfind : findSerialDigits (pre ++ (digs ++ serialSep) ++ post) = some digs :=
    findSerialDigits_split (digs ++ serialSep) post digs pre hmatch (by rw [← hsep]; exact hpre)
  refine ⟨?_, ?_, ?_⟩
  · intro hnp
    rw [hsep, increaseSerialNumber_eq today _ digs (by exact hfind), if_neg (by simp [hnp])]
    congr 2
    rw [show (String.mk (pre ++ (digs ++ serialSep) ++ post)).data =
        pre ++ (digs ++ serialSep) ++ post from rfl,
      replaceAllSerial_split _ (digs ++ serialSep) post digs pre hmidne hmatch
        (by rw [← hsep]; exact hpre),
      replaceAllSerial_no_match _ post hpost]
  · intro d1 d2 hd
    have hpref : today.data.isPrefixOf digs = true := by
      rw [hd]
      exact isPrefixOf_extend _ _ _ (List.isPrefixOf_iff_prefix.2 (List.prefix_refl _))
    have hdd : isDigitCh d1 = true ∧ isDigitCh d2 = true := by
      rw [hd] at hdigs
      have := hdigs.2
      simp only [List.all_append, Bool.and_eq_true, List.all_cons, List.all_nil] at this
      exact ⟨this.2.1, this.2.2.1⟩
    have hdrop : digs.drop today.data.length = [d1, d2] := by
      rw [hd]
      exact List.drop_left _ _
    have hatoi : goAtoi [d1, d2] = Except.ok (natOfDigits [d1, d2]) := by
      rw [goAtoi, if_pos (by simp [hdd.1, hdd.2])]
    rw [hsep, increaseSerialNumber_eq today _ digs (by exact hfind), if_pos hpref,
      hdrop, hatoi]
    show Except.ok (String.mk (replaceAllSerial
        (today ++ fmt02 (if natOfDigits [d1, d2] + 1 > 99 then 0
          else natOfDigits [d1, d2] + 1) ++ " ; serial number").data
        (pre ++ (digs ++ serialSep) ++ post))) = _
    congr 2
    rw [replaceAllSerial_split _ (digs ++ serialSep) post digs pre hmidne hmatch
        (by rw [← hsep]; exact hpre),
      replaceAllSerial_no_match _ post hpost]
  · intro content h
    unfold increaseSerialNumber
    rw [findSerialDigits_no_match content.data h]

/-- Witness for C4 at concrete serials: a stale date resets to the current
date with counter 01, the counter 99 on the current date wraps to 00, and
a text without the pattern fails. -/
theorem C4_serial_witness :
    increaseSerialNumber "20240101" (String.mk (([] : List Char) ++
        ("2021100101".data ++ (" ; serial number").data) ++ [])) =
      Except.ok (String.mk (([] : List Char) ++
        ("20240101" ++ "01 ; serial number").data ++ [])) ∧
    increaseSerialNumber "20240101" (String.mk (([] : List Char) ++
        (("20240101".data ++ ['9', '9']) ++ (" ; serial number").data) ++ [])) =
      Except.ok (String.mk (([] : List Char) ++
        ("20240101" ++ fmt02 (if natOfDigits ['9', '9'] + 1 > 99 then 0
          else natOfDigits ['9', '9'] + 1) ++ " ; serial number").data ++ [])) ∧
    increaseSerialNumber "20240101" "no serial here" =
      Except.error GoErr.serialNumberNotFound :=
  ⟨(C4_serial "20240101" [] "2021100101".data [] (by decide) (by decide) (by decide)
      (by decide)).1 (by decide),
   (C4_serial "20240101" [] ("20240101".data ++ ['9', '9']) [] (by decide) (by decide)
      (by decide) (by decide)).2.1 '9' '9' rfl,
   (C4_serial "20240101" [] "1".data [] (by decide) (by decide) (by decide)
      (by decide)).2.2 "no serial here" (by decide)⟩

theorem findIdx_sound (p : List RTok) :
    ∀ (s : List Char) (j : Nat), findIdx p s = some j → matchesAt p (s.drop j) = true := by
  intro s
  induction s with
  | nil =>
    intro j h
    rw [findIdx] at h
    by_cases h0 : matchesAt p [] = true
    · rw [if_pos h0] at h
      have : j = 0 := by simpa using h.symm
      rw [this, List.drop_nil]
      exact h0
    · rw [if_neg h0] at h
      exact absurd h (by simp)
  | cons c s ih =>
    intro j h
    rw [findIdx] at h
    by_cases h0 : matchesAt p (c :: s) = true
    · rw [if_pos h0] at h
      have : j = 0 := by simpa using h.symm
      rw [this, List.drop_zero]
      exact h0
    · rw [if_neg h0] at h
      cases hfi : findIdx p s with
      | none => rw [hfi] at h; exact absurd h (by simp)
      | some k =>
        rw [hfi] at h
        have hjk : j = k + 1 := by simpa using h.symm
        rw [hjk, List.drop_succ_cons]
        exact ih k hfi

/-- Unfolding of extractAcmeBotContent once the two marker patterns are
compiled. -/
theorem extractAcmeBotContent_eq (pfx content : String) (hp : plainStr pfx = true) :
    extractAcmeBotContent pfx content =
      match extractLoop (litPat (openChars pfx)) (litPat (closeChars pfx)) content.data with
      | some mid => Except.ok (String.mk mid)
      | none => Except.error GoErr.acmeBotContentNotFound := by
  unfold extractAcmeBotContent
  rw [compileLite_open pfx hp, compileLite_close pfx hp]

/-- Claim C6, counterexample: the Go pattern requires a newline right
after the opening marker.  Both markers are present and one character
stands between them, yet the extraction fails, where the claim demands
success returning that character. -/
theorem C6_counterexample :
    extractAcmeBotContent "TEST" "; TEST-ACME-BOTX; TEST-ACME-BOT-END" =
      Except.error GoErr.acmeBotContentNotFound ∧
    (Except.error GoErr.acmeBotContentNotFound : Except GoErr String) ≠ Except.ok "X" ∧
    containsSub "; TEST-ACME-BOT" "; TEST-ACME-BOTX; TEST-ACME-BOT-END" = true ∧
    containsSub "; TEST-ACME-BOT-END" "; TEST-ACME-BOTX; TEST-ACME-BOT-END" = true :=
  ⟨rfl, nofun, by decide, by decide⟩

/-- Claim C6 (amended): extractManagedBlock fails exactly when no
occurrence of the opening marker followed by a newline has an occurrence
of the closing marker at or after the end of that newline; in particular
both markers missing means failure, and a present but empty region
succeeds returning the empty string.  On a text decomposed around the
leftmost opening marker line with its nearest closing marker, the
characters in between are returned. -/
theorem C6_extract (pfx content : String) (hp : plainStr pfx = true) :
    (extractAcmeBotContent pfx content = Except.error GoErr.acmeBotContentNotFound ↔
      ¬ ∃ i j : Nat, (openChars pfx).isPrefixOf (content.data.drop i) = true ∧
        (closeChars pfx).isPrefixOf
          (content.data.drop (i + (openChars pfx).length + j)) = true) ∧
    (∀ t1 mid t2 : List Char,
      content.data = t1 ++ openChars pfx ++ mid ++ closeChars pfx ++ t2 →
      (∀ i < t1.length, (openChars pfx).isPrefixOf (content.data.drop i) = false) →
      (∀ k < mid.length,
        (closeChars pfx).isPrefixOf ((mid ++ (closeChars pfx ++ t2)).drop k) = false) →
      extractAcmeBotContent pfx content = Except.ok (String.mk mid)) := by
  have hop : matchesAt (litPat (openChars pfx)) [] = false :=
    matchesAt_nil _ (by simpa [litPat] using openChars_ne_nil pfx)
  have hcp : matchesAt (litPat (closeChars pfx)) [] = false :=
    matchesAt_nil _ (by simpa [litPat] using closeChars_ne_nil pfx)
  constructor
  · rw [extractAcmeBotContent_eq pfx content hp]
    cases hl : extractLoop (litPat (openChars pfx)) (litPat (closeChars pfx))
        content.data with
    | some mid =>
      constructor
      · intro h; exact absurd h (by simp)
      · intro hne
        exfalso
        apply hne
        have hn : extractLoop (litPat (openChars pfx)) (litPat (closeChars pfx))
            content.data ≠ none := by rw [hl]; simp
        rw [Ne, extractLoop_none_iff _ _ hop hcp] at hn
        push_neg at hn
        obtain ⟨i, hi, hfi⟩ := hn
        have hfi2 : ∃ j, findIdx (litPat (closeChars pfx))
            ((content.data.drop i).drop (litPat (openChars pfx)).length) = some j := by
          cases hx : findIdx (litPat (closeChars pfx))
              ((content.data.drop i).drop (litPat (openChars pfx)).length) with
          | none => exact absurd hx hfi
          | some j => exact ⟨j, rfl⟩
        obtain ⟨j, hj⟩ := hfi2
        refine ⟨i, j, ?_, ?_⟩
        · rw [← matchesAt_litPat]; exact hi
        · have := findIdx_sound _ _ _ hj
          rw [matchesAt_litPat] at this
          simp only [List.drop_drop, litPat_length] at this
          exact this
    | none =>
      constructor
      · intro _
        intro hex
        obtain ⟨i, j, hio, hic⟩ := hex
        have hall := (extractLoop_none_iff _ _ hop hcp content.data).1 hl
        have hfi := hall i (by rw [matchesAt_litPat]; exact hio)
        have := (findIdx_none_iff _ hcp _).1 hfi j
        rw [matchesAt_litPat] at this
        simp only [List.drop_drop, litPat_length] at this
        rw [hic] at this
        exact absurd this (by simp)
      · intro _; rfl
  · intro t1 mid t2 hdec h1 h2
    rw [extractAcmeBotContent_eq pfx content hp, hdec,
      extractLoop_found (openChars pfx) (closeChars pfx) mid t2 (openChars_ne_nil pfx) t1
        (fun i hi => by rw [← hdec]; exact h1 i hi) h2]

/-- Witness for C6 at a concrete zone text with content between the
markers. -/
theorem C6_extract_witness :
    extractAcmeBotContent "TEST"
        (String.mk (([] : List Char) ++ openChars "TEST" ++ "hi\n".data ++
          closeChars "TEST" ++ [])) = Except.ok (String.mk "hi\n".data) :=
  (C6_extract "TEST" (String.mk (([] : List Char) ++ openChars "TEST" ++ "hi\n".data ++
      closeChars "TEST" ++ [])) (by decide)).2 [] "hi\n".data [] rfl (by decide) (by decide)

/-- Claim C7, counterexample: with the empty prefix the markers carry a
hyphen, "; -ACME-BOT" and "; -ACME-BOT-END", so on the text of the claim,
whose markers lack the hyphen, the extraction fails instead of returning
the block content. -/
theorem C7_counterexample :
    extractAcmeBotContent "" "; ACME-BOT\nsome content\n; ACME-BOT-END" =
      Except.error GoErr.acmeBotContentNotFound ∧
    (Except.error GoErr.acmeBotContentNotFound : Except GoErr String) ≠
      Except.ok "some content\n" :=
  ⟨rfl, nofun⟩

/-- Claim C7 (amended): with the empty prefix the marker lines are
"; -ACME-BOT" and "; -ACME-BOT-END"; on the example text written with
those markers the extraction returns "some content\n". -/
theorem C7_amended :
    extractAcmeBotContent "" "; -ACME-BOT\nsome content\n; -ACME-BOT-END" =
      Except.ok "some content\n" := rfl

/-- Claim C9, confirmed: GenerateTextRecord fails with a validation error
exactly on an empty domain, an empty key or a domain outside the label
grammar, and otherwise returns the domain, twelve spaces, TXT and the
quoted key. -/
theorem C9_render (domain key : String) :
    ((domain = "" ∨ key = "" ∨ validDomain domain = false) →
      ∃ e, (Record.mk domain key).GenerateTextRecord = Except.error e) ∧
    (domain ≠ "" → key ≠ "" → validDomain domain = true →
      (Record.mk domain key).GenerateTextRecord =
        Except.ok (domain ++ "            TXT \"" ++ key ++ "\"")) := by
  constructor
  · rintro (h | h | h)
    · exact ⟨GoErr.domainRequired,
        by simp [Record.GenerateTextRecord, Record.Validate, h]⟩
    · by_cases hd : domain = ""
      · exact ⟨GoErr.domainRequired,
          by simp [Record.GenerateTextRecord, Record.Validate, hd]⟩
      · exact ⟨GoErr.keyRequired,
          by simp [Record.GenerateTextRecord, Record.Validate, hd, h]⟩
    · by_cases hd : domain = ""
      · exact ⟨GoErr.domainRequired,
          by simp [Record.GenerateTextRecord, Record.Validate, hd]⟩
      · by_cases hk : key = ""
        · exact ⟨GoErr.keyRequired,
            by simp [Record.GenerateTextRecord, Record.Validate, hd, hk]⟩
        · exact ⟨GoErr.invalidDomainFormat,
            by simp [Record.GenerateTextRecord, Record.Validate, hd, hk, h]⟩
  · intro hd hk hv
    simp [Record.GenerateTextRecord, Record.Validate, hd, hk, hv]

/-- Witness for C9: an uppercase domain is rejected and a valid pair is
rendered. -/
theorem C9_render_witness :
    (∃ e, (Record.mk "Example.com" "key").GenerateTextRecord = Except.error e) ∧
    (Record.mk "example.com" "key").GenerateTextRecord =
      Except.ok ("example.com" ++ "            TXT \"" ++ "key" ++ "\"") :=
  ⟨(C9_render "Example.com" "key").1 (Or.inr (Or.inr (by decide))),
   (C9_render "example.com" "key").2 (by decide) (by decide) (by decide)⟩

/-- Claim C5, confirmed: after a successful Present, a second Present with
the identical request returns the already-exists signal and leaves the
store unchanged, holding exactly one entry for the FQDN with the original
key; after a successful CleanUp, a second CleanUp with the identical
request returns the does-not-exist signal and leaves the store
unchanged. -/
theorem C5_idempotent :
    (∀ (w w2 : GitWorld) (pfx root today pfx2 root2 today2 : String) (st : Store)
        (fqdn key : String) (st1 : Store),
      Present w pfx root today st fqdn key = (Except.ok (), st1) →
      Present w2 pfx2 root2 today2 st1 fqdn key =
          (Except.error GoErr.txtRecordAlreadyExists, st1) ∧
        mapGet st1 fqdn = some key ∧ countKey st1 fqdn = 1) ∧
    (∀ (w w2 : GitWorld) (root today root2 today2 : String) (st : Store)
        (fqdn key : String) (st1 : Store),
      CleanUp w root today st fqdn key = (Except.ok (), st1) →
      CleanUp w2 root2 today2 st1 fqdn key =
        (Except.error GoErr.txtRecordDoesNotExist, st1)) := by
  constructor
  · intro w w2 pfx root today pfx2 root2 today2 st fqdn key st1 h
    unfold Present at h
    cases hg : mapGet st fqdn with
    | some v => rw [hg] at h; simp at h
    | none =>
      rw [hg] at h
      cases hpipe : presentPipeline w pfx root today fqdn key with
      | error e => rw [hpipe] at h; simp at h
      | ok u =>
        rw [hpipe] at h
        simp only [Prod.mk.injEq] at h
        obtain ⟨-, h2⟩ := h
        subst h2
        refine ⟨?_, mapGet_mapPut_self st fqdn key, countKey_mapPut_self st fqdn key⟩
        unfold Present
        rw [mapGet_mapPut_self]
  · intro w w2 root today root2 today2 st fqdn key st1 h
    unfold CleanUp at h
    cases hg : mapGet st fqdn with
    | none => rw [hg] at h; simp at h
    | some v =>
      rw [hg] at h
      cases hpipe : cleanUpPipeline w root today fqdn key with
      | error e => rw [hpipe] at h; simp at h
      | ok u =>
        rw [hpipe] at h
        simp only [Prod.mk.injEq] at h
        obtain ⟨-, h2⟩ := h
        subst h2
        unfold CleanUp
        rw [mapGet_mapDel_self]

/-- Witness for C5: a concrete Present call succeeds against a zone with
the managed block and a serial field, and the duplicate call returns the
already-exists signal; a concrete CleanUp succeeds and its duplicate
returns the does-not-exist signal. -/
theorem C5_idempotent_witness :
    (Present (GitWorld.mk none (Except.ok "z") none none) "P" "" "20240101"
        [("_acme-challenge.example.com.", "k")] "_acme-challenge.example.com." "k" =
          (Except.error GoErr.txtRecordAlreadyExists,
            [("_acme-challenge.example.com.", "k")]) ∧
      mapGet [("_acme-challenge.example.com.", "k")] "_acme-challenge.example.com." =
        some "k" ∧
      countKey [("_acme-challenge.example.com.", "k")] "_acme-challenge.example.com." = 1) ∧
    CleanUp (GitWorld.mk none (Except.ok "z2") none none) "" "20240101" ([] : Store)
        "_acme-challenge.example.com." "k" =
      (Except.error GoErr.txtRecordDoesNotExist, ([] : Store)) :=
  ⟨C5_idempotent.1
      (GitWorld.mk none
        (Except.ok "; P-ACME-BOT\n; P-ACME-BOT-END\n2024010101 ; serial number") none none)
      (GitWorld.mk none (Except.ok "z") none none)
      "P" "" "20240101" "P" "" "20240101" [] "_acme-challenge.example.com." "k"
      [("_acme-challenge.example.com.", "k")] rfl,
   C5_idempotent.2
      (GitWorld.mk none
        (Except.ok
          "_acme-challenge.example.com            TXT \"k\"\n2024010101 ; serial number")
        none none)
      (GitWorld.mk none (Except.ok "z2") none none)
      "" "20240101" "" "20240101" [("_acme-challenge.example.com.", "k")]
      "_acme-challenge.example.com." "k" [] rfl⟩

end CertWebhook
